import Mathlib

/-!
Verification of the voice-ai generator backend audio pipeline.

Shallow embedding of the audio-generation core of the repository:

* `src/src/services/cloudinaryAudioService.js` — `cleanTextForTTS` (lines
  28–73), `generateTikTokVoice` (lines 76–255), `createPlaceholderAudio`
  (lines 258–302), `createSilentWav` (lines 305–345),
  `estimateAudioDuration` (lines 777–783), `generateAudio` (lines 786–816).
* `src/unnamed/part_000` (the `audioService.js` variant) — `cleanTextForTTS`
  (lines 26–104), `enhanceForStorytelling` (lines 107–142),
  `splitTextIntoChunks` (lines 431–481), `combineAudioBuffers`
  (lines 484–543).

Strings are embedded as `List Char` (the inputs exercised are within the
basic multilingual plane, where JavaScript's UTF-16 `length` coincides with
the number of characters).  Each JavaScript `String.prototype.replace` call
with a global regex is embedded as a dedicated scanning pass that reproduces
that regex's left-to-right, leftmost-match semantics (including the
word-boundary `\b`, multiline `^`, and greedy/backtracking behaviour of the
specific pattern, analysed per pattern).  External effects (TTS backends,
`ffmpeg`, the Cloudinary upload) are modelled as explicit outcome
parameters: `some bytes` for a successful invocation producing those file
bytes, `none` for a thrown error / unavailable tool.  `Buffer`s are
`List Nat` with each entry a byte value.
-/

namespace VoiceAI

/-- JavaScript `\s` character class (also the set trimmed by
`String.prototype.trim`): ASCII whitespace plus the Unicode space
separators, line separators and the BOM. -/
def jsSpace (c : Char) : Bool :=
  c == ' ' || c == '\t' || c == '\n' || c == '\r' || c == '\x0b' || c == '\x0c' ||
  c == '\u00a0' || c == '\u1680' || (0x2000 ≤ c.toNat && c.toNat ≤ 0x200a) ||
  c == '\u2028' || c == '\u2029' || c == '\u202f' || c == '\u205f' || c == '\u3000' ||
  c == '\ufeff'

/-- JavaScript `\w` character class: `[A-Za-z0-9_]`. -/
def isWordChar (c : Char) : Bool :=
  ('a' ≤ c && c ≤ 'z') || ('A' ≤ c && c ≤ 'Z') || ('0' ≤ c && c ≤ '9') || c == '_'

/-- JavaScript `\d` character class. -/
def isDigitChar (c : Char) : Bool := '0' ≤ c && c ≤ '9'

/-- ASCII lower-casing, as used to model the regex `i` flag (all
case-insensitive patterns in the source are ASCII). -/
def lcChar (c : Char) : Char :=
  if 'A' ≤ c && c ≤ 'Z' then Char.ofNat (c.toNat + 32) else c

/-- Case-insensitive prefix test: `pat` (given in lower case) is a prefix of
`xs` up to ASCII case. -/
def ciPrefix : List Char → List Char → Bool
  | [], _ => true
  | _ :: _, [] => false
  | p :: ps, c :: cs => p == lcChar c && ciPrefix ps cs

/-- Embedding of `String.prototype.trim`: strip `jsSpace` characters from both ends. -/
def jsTrim (xs : List Char) : List Char :=
  ((xs.dropWhile jsSpace).reverse.dropWhile jsSpace).reverse

/-- Embedding of `String.prototype.split` on a regex of the form `[…]+` (used with
`/[.!?]+/`): separators are maximal runs of characters satisfying `p`;
leading/trailing/empty fields are kept, as in JavaScript.  Structural
recursion on fuel (which `jsSplitRuns` instantiates with the length of the
list, always sufficient). -/
def jsSplitRunsF (p : Char → Bool) : Nat → List Char → List (List Char)
  | 0, xs => [xs]
  | _ + 1, [] => [[]]
  | fuel + 1, c :: rest =>
    if p c then
      [] :: jsSplitRunsF p fuel (rest.dropWhile p)
    else
      match jsSplitRunsF p fuel rest with
      | [] => [[c]]
      | h :: t => (c :: h) :: t

def jsSplitRuns (p : Char → Bool) (xs : List Char) : List (List Char) :=
  jsSplitRunsF p xs.length xs

/-- Sentence terminators, the class `[.!?]`. -/
def isTerminator (c : Char) : Bool := c == '.' || c == '!' || c == '?'

/-! ## Generic scanning driver for `String.prototype.replace(regex, …)`

A pass is given by a `step` function which, looking at the character before
the current position (`none` at the start of the string — needed for `\b`
and multiline `^` assertions) and the remaining input, decides whether the
regex matches at the current position.  `some (rep, k)` means: the match
consumes `k + 1` characters and is replaced by `rep`.  The driver reproduces
the left-to-right global-replace loop: on a match it continues after the
match, otherwise it advances one character.  Fuel is the input length
(always sufficient since every step consumes at least one character). -/

def scanF (step : Option Char → List Char → Option (List Char × Nat)) :
    Nat → Option Char → List Char → List Char
  | 0, _, xs => xs
  | _ + 1, _, [] => []
  | fuel + 1, prev, c :: rest =>
    match step prev (c :: rest) with
    | some (rep, k) => rep ++ scanF step fuel (some ((c :: rest).getD k c)) (rest.drop k)
    | none => c :: scanF step fuel (some c) rest

def scan (step : Option Char → List Char → Option (List Char × Nat)) (xs : List Char) :
    List Char :=
  scanF step xs.length none xs

/-- Whether `\b` held just before the current position for a pattern whose first
character is a word character: the previous character (if any) is not a word
character. -/
def boundaryBefore (prev : Option Char) : Bool :=
  match prev with
  | none => true
  | some c => !isWordChar c

/-- Whether `\b` holds just after a match ending in a word character iff the next
character (head of the rest) is absent or not a word character. -/
def boundaryAfter : List Char → Bool
  | [] => true
  | c :: _ => !isWordChar c

/-- Multiline `^` (the `m` flag): start of input or just after a line
terminator. -/
def atLineStart (prev : Option Char) : Bool :=
  match prev with
  | none => true
  | some c => c == '\n' || c == '\r' || c == '\u2028' || c == '\u2029'

/-- Length of the leading `\s` run. -/
def spaceRunLen (xs : List Char) : Nat := (xs.takeWhile jsSpace).length

/-- Length of the leading `\d` run. -/
def digitRunLen (xs : List Char) : Nat := (xs.takeWhile isDigitChar).length

/-! ## The individual replace passes

One `step` function per regex appearing in the two `cleanTextForTTS`
variants and in `enhanceForStorytelling`. -/

/-- Pass for `/<[^>]*>/g → ""` (strip HTML tags).  `[^>]*` cannot cross a `>`,
so a match at a `<` runs to the first following `>`; a `<` with no
later `>` never matches. -/
def stepHtmlTag (_ : Option Char) : List Char → Option (List Char × Nat)
  | '<' :: rest =>
    match rest.findIdx? (· == '>') with
    | some i => some ([], i + 1)
    | none => none
  | _ => none

/-- Pass for `/#{1,6}\s*/g → ""` (strip markdown headers).  Greedy: up to six `#`;
if the run is longer, exactly six are consumed and `\s*` is empty (the next
character is another `#`, picked up by the next match). -/
def stepMdHeader (_ : Option Char) : List Char → Option (List Char × Nat)
  | '#' :: rest =>
    let hs := 1 + (rest.takeWhile (· == '#')).length
    if hs ≤ 6 then some ([], hs - 1 + spaceRunLen (rest.drop (hs - 1)))
    else some ([], 5)
  | _ => none

/-- The character class of `/[*_\x60~]/g` (markdown emphasis characters;
0x60 is the backquote). -/
def isMdChar (c : Char) : Bool := c == '*' || c == '_' || c.toNat == 0x60 || c == '~'

/-- Pass for `/https?:\/\/[^\s]+/g → ""` (strip URLs): literal scheme, then at least
one non-space character, consumed greedily. -/
def stepUrl (_ : Option Char) (xs : List Char) : Option (List Char × Nat) :=
  let tryProto (proto : List Char) : Option Nat :=
    if proto.isPrefixOf xs then
      let run := ((xs.drop proto.length).takeWhile (fun c => !jsSpace c)).length
      if 1 ≤ run then some (proto.length + run) else none
    else none
  match tryProto "https://".toList with
  | some n => some ([], n - 1)
  | none =>
    match tryProto "http://".toList with
    | some n => some ([], n - 1)
    | none => none

/-- Match condition of `/\S+@\S+\.\S+/g` within one maximal non-space
token: an `@` preceded by at least one character, and after at least one
further character a `.` that is not the token's last character.  When the
pattern matches anywhere in the token it matches at the token's start, and
greediness extends the match to the whole token. -/
def emailCond (tok : List Char) : Bool :=
  (List.range tok.length).any fun i =>
    i != 0 && tok.getD i ' ' == '@' && ((tok.drop (i + 2)).dropLast.contains '.')

/-- Pass for `/\S+@\S+\.\S+/g → ""` (strip e-mail addresses), processed token by
token: the match never crosses whitespace, and a matching token is removed
whole. -/
def emailPassF : Nat → List Char → List Char
  | 0, xs => xs
  | _ + 1, [] => []
  | fuel + 1, c :: rest =>
    if jsSpace c then c :: emailPassF fuel rest
    else
      let tok := c :: rest.takeWhile (fun d => !jsSpace d)
      let rest' := rest.dropWhile (fun d => !jsSpace d)
      (if emailCond tok then [] else tok) ++ emailPassF fuel rest'

def emailPass (xs : List Char) : List Char := emailPassF xs.length xs

/-- Trailing part `(word|character)s?\b` of the four count-annotation
regexes (`i` flag): the base word case-insensitively, an optional `s`, and
a word boundary; returns the number of characters consumed.  If the
character after the base (or after the `s`) is a word character the match
fails — backtracking cannot help because the boundary between two word
characters never holds. -/
def matchCountWord (base : List Char) (xs : List Char) : Option Nat :=
  if ciPrefix base xs then
    match xs.drop base.length with
    | [] => some base.length
    | s :: rest =>
      if lcChar s == 's' then
        if boundaryAfter rest then some (base.length + 1) else none
      else if !isWordChar s then some base.length else none
  else none

/-- Pass for `/\b\d{1,4}[-–]\d{1,4}\s*(word|character)s?\b/gi → ""`.  Each `\d{1,4}`
must consume a complete digit run of length ≤ 4 (a shorter greedy choice is
followed by another digit, on which the pattern's next token fails). -/
def stepCountRange (base : List Char) (prev : Option Char) (xs : List Char) :
    Option (List Char × Nat) :=
  match xs with
  | c :: _ =>
    if isDigitChar c && boundaryBefore prev then
      let d1 := digitRunLen xs
      if d1 ≤ 4 then
        match xs.drop d1 with
        | dash :: rest2 =>
          if dash == '-' || dash == '\u2013' then
            let d2 := digitRunLen rest2
            if 1 ≤ d2 && d2 ≤ 4 then
              let afterD2 := rest2.drop d2
              let sp := spaceRunLen afterD2
              match matchCountWord base (afterD2.drop sp) with
              | some w => some ([], d1 + 1 + d2 + sp + w - 1)
              | none => none
            else none
          else none
        | [] => none
      else none
    else none
  | [] => none

/-- Pass for `/\b\d{1,4}\s*(word|character)s?\b/gi → ""`. -/
def stepCountPlain (base : List Char) (prev : Option Char) (xs : List Char) :
    Option (List Char × Nat) :=
  match xs with
  | c :: _ =>
    if isDigitChar c && boundaryBefore prev then
      let d1 := digitRunLen xs
      if d1 ≤ 4 then
        let after := xs.drop d1
        let sp := spaceRunLen after
        match matchCountWord base (after.drop sp) with
        | some w => some ([], d1 + sp + w - 1)
        | none => none
      else none
    else none
  | [] => none

/-- Pass for `/^\d+\.\s*/gm → ""` (strip section numbering at line starts). -/
def stepSectionNum (prev : Option Char) (xs : List Char) : Option (List Char × Nat) :=
  match xs with
  | c :: _ =>
    if atLineStart prev && isDigitChar c then
      let d := digitRunLen xs
      match xs.drop d with
      | '.' :: rest => some ([], d + spaceRunLen rest)
      | _ => none
    else none
  | [] => none

/-- Pass for `/^[…]\s*/gm → ""` (strip bullet markers at line starts; the bullet set
differs slightly between the two source variants and is a parameter). -/
def stepBullet (bullets : List Char) (prev : Option Char) (xs : List Char) :
    Option (List Char × Nat) :=
  match xs with
  | c :: rest =>
    if atLineStart prev && bullets.contains c then some ([], spaceRunLen rest)
    else none
  | [] => none

/-- Pass for `/\[\d+\]/g → ""` (strip bracketed references). -/
def stepBracketNum (_ : Option Char) : List Char → Option (List Char × Nat)
  | '[' :: rest =>
    let d := digitRunLen rest
    if 1 ≤ d then
      match rest.drop d with
      | ']' :: _ => some ([], d + 1)
      | _ => none
    else none
  | _ => none

/-- Does `xs` contain `w` (case-insensitively) as a contiguous substring? -/
def containsCiWord (w : List Char) (xs : List Char) : Bool :=
  (List.range xs.length).any fun i => ciPrefix w (xs.drop i)

/-- Content condition of `/\([^)]*\d+[^)]*words?[^)]*\)/gi`: a digit
strictly before an occurrence of `word`. -/
def parenCondDigitWord (content : List Char) : Bool :=
  (List.range content.length).any fun i =>
    isDigitChar (content.getD i ' ') && containsCiWord "word".toList (content.drop (i + 1))

/-- Content condition of `/\([^)]*words?[^)]*\d+[^)]*\)/gi`: an occurrence
of `word` with a digit at least four positions later. -/
def parenCondWordDigit (content : List Char) : Bool :=
  (List.range content.length).any fun i =>
    ciPrefix "word".toList (content.drop i) && (content.drop (i + 4)).any isDigitChar

/-- The two parenthetical-instruction regexes: `[^)]*` cannot cross `)`, so
a match at a `(` spans to the first following `)` and fires iff the
enclosed content satisfies `cond`. -/
def stepParen (cond : List Char → Bool) (_ : Option Char) :
    List Char → Option (List Char × Nat)
  | '(' :: rest =>
    match rest.findIdx? (· == ')') with
    | some i => if cond (rest.take i) then some ([], i + 1) else none
    | none => none
  | _ => none

/-- Pass for `/#\w+/g → ""` (strip hashtags). -/
def stepHashtag (_ : Option Char) : List Char → Option (List Char × Nat)
  | '#' :: rest =>
    let w := (rest.takeWhile isWordChar).length
    if 1 ≤ w then some ([], w) else none
  | _ => none

/-- Pass for `/\.{2,}/g → "."` (collapse dot runs). -/
def stepMultiDot (_ : Option Char) : List Char → Option (List Char × Nat)
  | '.' :: rest =>
    let d := 1 + (rest.takeWhile (· == '.')).length
    if 2 ≤ d then some (['.'], d - 1) else none
  | _ => none

/-- The punctuation class `[.,!?;:]`. -/
def isPunct (c : Char) : Bool :=
  c == '.' || c == ',' || c == '!' || c == '?' || c == ';' || c == ':'

/-- Pass for `/\s+([.,!?;:])/g → "$1"` (drop spaces before punctuation). -/
def stepSpaceBeforePunct (_ : Option Char) (xs : List Char) : Option (List Char × Nat) :=
  match xs with
  | c :: _ =>
    if jsSpace c then
      let sp := spaceRunLen xs
      match xs.drop sp with
      | p :: _ => if isPunct p then some ([p], sp) else none
      | [] => none
    else none
  | [] => none

/-- Pass for `/([.,!?;:])\s+/g → "$1 "` (normalise spaces after punctuation). -/
def stepPunctSpace (_ : Option Char) : List Char → Option (List Char × Nat)
  | c :: rest =>
    if isPunct c then
      let sp := spaceRunLen rest
      if 1 ≤ sp then some ([c, ' '], sp) else none
    else none
  | [] => none

/-- The family `/X\s*/g → "X "` for `X` one of `.`, `,`, `!`, `?` ("add
natural pauses"). -/
def stepCharSpace (target : Char) (_ : Option Char) : List Char → Option (List Char × Nat)
  | c :: rest =>
    if c == target then some ([c, ' '], spaceRunLen rest)
    else none
  | [] => none

/-- Pass for `/\s+/g → " "` (collapse whitespace runs). -/
def stepCollapseSpace (_ : Option Char) (xs : List Char) : Option (List Char × Nat) :=
  match xs with
  | c :: _ => if jsSpace c then some ([' '], spaceRunLen xs - 1) else none
  | [] => none

/-- Pass for `/।\s*।/g → "।"` (Nepali danda pair collapse). -/
def stepDandaPair (_ : Option Char) : List Char → Option (List Char × Nat)
  | c :: rest =>
    if c == '\u0964' then
      let sp := spaceRunLen rest
      match rest.drop sp with
      | d :: _ => if d == '\u0964' then some (['\u0964'], sp + 1) else none
      | [] => none
    else none
  | [] => none

/-- Pass for `/\s*।\s*/g → "। "` (danda spacing normalisation). -/
def stepDandaSpacing (_ : Option Char) (xs : List Char) : Option (List Char × Nat) :=
  match xs with
  | c :: _ =>
    let sp1 := if jsSpace c then spaceRunLen xs else 0
    match xs.drop sp1 with
    | d :: rest2 =>
      if d == '\u0964' then some (['\u0964', ' '], sp1 + spaceRunLen rest2)
      else none
    | [] => none
  | [] => none

def isUpper (c : Char) : Bool := 'A' ≤ c && c ≤ 'Z'

/-- Pass for `/([.!?])\s*([A-Z])/g → "$1 $2"` (one space between sentences). -/
def stepSentenceSpacing (_ : Option Char) : List Char → Option (List Char × Nat)
  | c :: rest =>
    if isTerminator c then
      let sp := spaceRunLen rest
      match rest.drop sp with
      | u :: _ => if isUpper u then some ([c, ' ', u], sp + 1) else none
      | [] => none
    else none
  | [] => none

/-- Pass for `/([.!?])\s*$/g → "$1"` (drop trailing whitespace after the final
punctuation; `$` without the `m` flag only matches at the end of input). -/
def stepTrailingPunct (_ : Option Char) : List Char → Option (List Char × Nat)
  | c :: rest =>
    if isTerminator c && rest.all jsSpace then some ([c], rest.length)
    else none
  | [] => none

/-- The storytelling-enhancement pass of part_000 lines 111–128: a replace
whose callback returns the match unchanged in every branch, hence the
identity on the text. -/
def enhanceCapitalizedNames (xs : List Char) : List Char := xs

/-- Alternation matcher of `/\b(Welcome to|…)\b/gi`: alternatives are tried
in order; an alternative matches only when the trailing word boundary also
holds (the only continuation of the alternation); `$1` preserves the
original casing and a comma is appended. -/
def triggerAltMatch (xs : List Char) : List (List Char) → Option (List Char × Nat)
  | [] => none
  | alt :: more =>
    if ciPrefix alt xs && boundaryAfter (xs.drop alt.length) then
      some (xs.take alt.length ++ [','], alt.length - 1)
    else triggerAltMatch xs more

/-- Pass for `/\b(Welcome to|Introducing|About|Our|We are|We offer|Located in|Established in)\b/gi
→ "$1,"`. -/
def stepTriggerComma (alts : List (List Char)) (prev : Option Char) (xs : List Char) :
    Option (List Char × Nat) :=
  if boundaryBefore prev then triggerAltMatch xs alts else none

/-- Alternation matcher of the conclusion regex: as `triggerAltMatch`, with
replacement `", $1,"`. -/
def conclusionAltMatch (xs : List Char) : List (List Char) → Option (List Char × Nat)
  | [] => none
  | alt :: more =>
    if ciPrefix alt xs && boundaryAfter (xs.drop alt.length) then
      some (',' :: ' ' :: (xs.take alt.length ++ [',']), alt.length - 1)
    else conclusionAltMatch xs more

/-- Pass for `/\b(Therefore|Thus|In conclusion|Finally|Overall)\b/gi → ", $1,"`. -/
def stepConclusionComma (alts : List (List Char)) (prev : Option Char) (xs : List Char) :
    Option (List Char × Nat) :=
  if boundaryBefore prev then conclusionAltMatch xs alts else none

/-- Alternation matcher of the list-flow regex: no trailing word boundary;
the following whitespace run is absorbed and `", "` appended. -/
def listAltMatch (xs : List Char) : List (List Char) → Option (List Char × Nat)
  | [] => none
  | alt :: more =>
    if ciPrefix alt xs then
      some (xs.take alt.length ++ [',', ' '], alt.length + spaceRunLen (xs.drop alt.length) - 1)
    else listAltMatch xs more

/-- Pass for `/\b(including|such as|like|for example)\s*/gi → "$1, "`. -/
def stepListComma (alts : List (List Char)) (prev : Option Char) (xs : List Char) :
    Option (List Char × Nat) :=
  if boundaryBefore prev then listAltMatch xs alts else none

def introAlts : List (List Char) :=
  ["welcome to", "introducing", "about", "our", "we are", "we offer",
   "located in", "established in"].map String.toList

def conclusionAlts : List (List Char) :=
  ["therefore", "thus", "in conclusion", "finally", "overall"].map String.toList

def listAlts : List (List Char) :=
  ["including", "such as", "like", "for example"].map String.toList

/-! ## The two `cleanTextForTTS` variants -/

/-- Embedding of `cleanTextForTTS` of `cloudinaryAudioService.js`, lines 28–73.  The
single-character class `/[*_\x60~]/g → ""` is a filter.  The guard for
null/non-string input returns the empty string; on the `List Char`
embedding the empty input already maps to the empty output. -/
def cloudinaryCleanTextForTTS (language : String) (text : List Char) : List Char :=
  let t := scan stepHtmlTag text
  let t := scan stepMdHeader t
  let t := t.filter (fun c => !isMdChar c)
  let t := scan stepUrl t
  let t := emailPass t
  let t := scan (stepCountRange "word".toList) t
  let t := scan (stepCountPlain "word".toList) t
  let t := scan (stepCountRange "character".toList) t
  let t := scan (stepCountPlain "character".toList) t
  let t := scan stepSectionNum t
  let t := scan (stepBullet ['•', '-', '*']) t
  let t := scan stepCollapseSpace t
  let t := jsTrim t
  let t := if language == "ne" then scan stepDandaSpacing (scan stepDandaPair t) else t
  let t := scan stepSentenceSpacing t
  scan stepTrailingPunct t

/-- Keep-set of the Nepali branch filter
`/[^ऀ-ॿ\w\s.,!?;:()\-'"]/g → ""` (0x27 is the apostrophe). -/
def devanagariKeep (c : Char) : Bool :=
  (0x900 ≤ c.toNat && c.toNat ≤ 0x97f) || isWordChar c || jsSpace c ||
  isPunct c || c == '(' || c == ')' || c == '-' || c.toNat == 0x27 || c == '"'

/-- Keep-set of the Latin branch filter `/[^\x00-\x7F]/g → ""`. -/
def asciiKeep (c : Char) : Bool := c.toNat ≤ 0x7f

/-- The sentence-accumulation loop of part_000 lines 87–96: greedily append
sentences (trimmed, with ". " re-attached) while the untrimmed candidate
stays within the cap, stopping at the first sentence that does not fit. -/
def accumulateSentences (maxLength : Nat) : List (List Char) → List Char → List Char
  | [], result => result
  | sentence :: rest, result =>
    if (result ++ sentence ++ ['.', ' ']).length ≤ maxLength then
      accumulateSentences maxLength rest (result ++ jsTrim sentence ++ ['.', ' '])
    else result

/-- The length-cap step of part_000 lines 84–98: texts over the cap are cut
at sentence boundaries when possible, else hard-truncated to the cap. -/
def truncateAtCap (maxLength : Nat) (cleanText : List Char) : List Char :=
  if maxLength < cleanText.length then
    let r := jsTrim (accumulateSentences maxLength (jsSplitRuns isTerminator cleanText) [])
    if r.isEmpty then cleanText.take maxLength else r
  else cleanText

/-- Embedding of `enhanceForStorytelling` of part_000, lines 107–142 (the `language`
parameter of the source is unused by its body). -/
def enhanceForStorytelling (text : List Char) : List Char :=
  let t := enhanceCapitalizedNames text
  let t := scan (stepTriggerComma introAlts) t
  let t := scan (stepConclusionComma conclusionAlts) t
  let t := scan (stepListComma listAlts) t
  scan stepSentenceSpacing t

/-- The common pass pipeline of part_000 `cleanTextForTTS`, lines 32–71
(everything up to and including the whitespace collapse and trim). -/
def part000CleanCore (text : List Char) : List Char :=
  let t := scan stepHtmlTag text
  let t := scan stepMdHeader t
  let t := t.filter (fun c => !isMdChar c)
  let t := scan stepUrl t
  let t := emailPass t
  let t := scan (stepCountRange "word".toList) t
  let t := scan (stepCountPlain "word".toList) t
  let t := scan (stepCountRange "character".toList) t
  let t := scan (stepCountPlain "character".toList) t
  let t := scan stepSectionNum t
  let t := scan (stepBullet ['-', '•', '*']) t
  let t := scan stepBracketNum t
  let t := scan (stepParen parenCondDigitWord) t
  let t := scan (stepParen parenCondWordDigit) t
  let t := scan stepHashtag t
  let t := scan stepMultiDot t
  let t := scan stepSpaceBeforePunct t
  let t := scan stepPunctSpace t
  let t := scan (stepCharSpace '.') t
  let t := scan (stepCharSpace ',') t
  let t := scan (stepCharSpace '!') t
  let t := scan (stepCharSpace '?') t
  let t := scan stepCollapseSpace t
  jsTrim t

/-- part_000 `cleanTextForTTS` up to (and including) the language-specific
character filter, i.e. the text whose length is tested against the cap. -/
def part000CleanPre (language : String) (text : List Char) : List Char :=
  let t := part000CleanCore text
  if language == "ne" then t.filter devanagariKeep else t.filter asciiKeep

/-- Embedding of `cleanTextForTTS` of part_000 (`audioService.js`), lines 26–104:
passes, character filter, per-language cap, storytelling enhancement,
final trim. -/
def part000CleanTextForTTS (language : String) (text : List Char) : List Char :=
  let cleanText := part000CleanPre language text
  let maxLength : Nat := if language == "ne" then 1500 else 2000
  let cleanText := truncateAtCap maxLength cleanText
  let cleanText := enhanceForStorytelling cleanText
  jsTrim cleanText

/-! ## Chunker (part_000 `splitTextIntoChunks`, lines 431–481) -/

/-- One iteration of the word-packing loop (lines 452–468). -/
def wordStep (maxLength : Nat) (acc : List (List Char) × List Char) (word : List Char) :
    List (List Char) × List Char :=
  let (chunks, wordChunk) := acc
  let proposed := if wordChunk.isEmpty then word else wordChunk ++ [' '] ++ word
  if proposed.length ≤ maxLength then (chunks, proposed)
  else if !wordChunk.isEmpty then (chunks ++ [wordChunk ++ ['.']], word)
  else (chunks ++ [word ++ ['.']], [])

/-- One iteration of the sentence loop (lines 436–474). -/
def sentenceStep (maxLength : Nat) (acc : List (List Char) × List Char) (sentence : List Char) :
    List (List Char) × List Char :=
  let (chunks, currentChunk) := acc
  let trimmed := jsTrim sentence
  if trimmed.isEmpty then (chunks, currentChunk)
  else
    let proposed :=
      if currentChunk.isEmpty then trimmed else currentChunk ++ ('.' :: ' ' :: trimmed)
    if proposed.length ≤ maxLength then (chunks, proposed)
    else if !currentChunk.isEmpty then (chunks ++ [currentChunk ++ ['.']], trimmed)
    else
      (jsTrim sentence).splitOn ' ' |>.foldl (wordStep maxLength) (chunks, [])

def splitTextIntoChunks (text : List Char) (maxLength : Nat) : List (List Char) :=
  let sentences := (jsSplitRuns isTerminator text).filter (fun s => !(jsTrim s).isEmpty)
  let state := sentences.foldl (sentenceStep maxLength) ([], [])
  let chunks := if !state.2.isEmpty then state.1 ++ [state.2 ++ ['.']] else state.1
  if 0 < chunks.length then chunks else [text]

/-! ## Audio combination (part_000 `combineAudioBuffers`, lines 484–543) -/

/-- Embedding of `combineAudioBuffers`: a single buffer is returned as is; otherwise the
external concat tool is used when available (its output bytes are the
`ffmpegConcat` parameter), and on unavailability or failure the buffers are
concatenated byte-wise in order (`Buffer.concat`). -/
def combineAudioBuffers (ffmpegConcat : Option (List Nat)) (audioBuffers : List (List Nat)) :
    List Nat :=
  if audioBuffers.length == 1 then audioBuffers.headD []
  else
    match ffmpegConcat with
    | some combined => combined
    | none => audioBuffers.flatten

/-! ## Silent WAV construction (`createSilentWav`, lines 305–345) -/

/-- Little-endian byte serialisations of `Buffer.writeUInt32LE` /
`writeUInt16LE`. -/
def u32le (n : Nat) : List Nat :=
  [n % 256, n / 256 % 256, n / 65536 % 256, n / 16777216 % 256]

def u16le (n : Nat) : List Nat := [n % 256, n / 256 % 256]

/-- Embedding of `Buffer.write` of an ASCII tag. -/
def asciiBytes (s : String) : List Nat := s.toList.map Char.toNat

/-- Embedding of `createSilentWav` (lines 305–345): the file bytes produced for a given
duration.  JavaScript number arithmetic on durations is modelled by exact
rationals; every caller passes a duration clamped to at least 10 seconds,
where the float and rational computations agree on all facts used here. -/
def createSilentWav (durationSeconds : ℚ) : List Nat :=
  let sampleRate : Nat := 44100
  let numSamples : Nat := (Int.floor ((sampleRate : ℚ) * durationSeconds)).toNat
  let numChannels : Nat := 1
  let bitsPerSample : Nat := 16
  let byteRate := sampleRate * numChannels * bitsPerSample / 8
  let blockAlign := numChannels * bitsPerSample / 8
  let dataSize := numSamples * blockAlign
  let chunkSize := 36 + dataSize
  asciiBytes "RIFF" ++ u32le chunkSize ++ asciiBytes "WAVE" ++
  asciiBytes "fmt " ++ u32le 16 ++ u16le 1 ++ u16le numChannels ++
  u32le sampleRate ++ u32le byteRate ++ u16le blockAlign ++ u16le bitsPerSample ++
  asciiBytes "data" ++ u32le dataSize ++ List.replicate dataSize 0

/-- Embedding of `estimateAudioDuration` (lines 777–783): reading-time estimate, at
least 10 seconds. -/
def estimateAudioDuration (text : List Char) : ℚ :=
  max ((text.length : ℚ) / 5 / 180 * 60) 10

/-- The duration computed inside `createPlaceholderAudio` (lines 260–269):
like `estimateAudioDuration` but additionally capped at 300 seconds. -/
def placeholderDuration (text : List Char) : ℚ :=
  min (max ((text.length : ℚ) / 5 / 180 * 60) 10) 300

/-! ## The orchestrator (`generateTikTokVoice`, lines 76–255, and
`generateAudio`, lines 786–816)

The five strategy slots of the fallback cascade and the Cloudinary upload
are external effects; their outcomes are fields of `TikTokEnv`
(`some bytes` = the call succeeded leaving those bytes in the temp file,
`none` = it threw).  `createPlaceholderAudio` itself first tries `ffmpeg`
(`placeholderFfmpeg`) and falls back to the pure `createSilentWav`, so the
last cascade stage cannot fail. -/

structure UploadResult where
  secure_url : String
  public_id : String
  bytes : Nat
  /-- `duration` of the Cloudinary response; `none` models a missing or
  falsy value (the source reads `uploadResult.duration || estimate`). -/
  duration : Option ℚ
deriving Repr, DecidableEq

structure TikTokEnv where
  googleTTS : Option (List Nat)
  enhancedFallback : Option (List Nat)
  enhancedWebTTS : Option (List Nat)
  advancedPlaceholder : Option (List Nat)
  placeholderFfmpeg : Option (List Nat)
  upload : Option UploadResult
  /-- the collision-resistant temp file path chosen at lines 84–87 -/
  tempPath : String
  /-- the timestamp suffix used for the mock public id (line 209) -/
  nowId : String

structure GenMetadata where
  voice : String
  speed : ℚ
  textLength : Nat
  estimatedWords : Nat
  audioGenerated : Bool
  method : String
  fileSize : Nat
deriving Repr, DecidableEq

/-- The object returned by `generateTikTokVoice` (lines 234–250; the
`generatedAt` wall-clock field is omitted). -/
structure GenResult where
  success : Bool
  audioUrl : String
  publicId : String
  duration : ℚ
  metadata : GenMetadata
deriving Repr, DecidableEq

/-- One run of the orchestrator: its outcome plus observables of the run —
which strategies were invoked (in order), the cleaned text handed to the
strategies, the final content of the temp audio file, and whether the temp
file was deleted. -/
structure TikTokRun where
  result : Except String GenResult
  invoked : List String
  ttsInput : Option (List Char)
  fileBytes : List Nat
  tempFileDeleted : Bool

/-- The fallback cascade of `generateTikTokVoice`, lines 100–163: first
success wins; the last stage (`createPlaceholderAudio`) tries `ffmpeg` and
otherwise builds the silent WAV in memory, so it always yields bytes.
Returns the produced file bytes, the recorded `generationMethod`, and the
list of strategies invoked, in order. -/
def fallbackCascade (env : TikTokEnv) (cleanText : List Char) :
    List Nat × String × List String :=
  match env.googleTTS with
  | some b => (b, "google_tts_primary", ["google_tts_primary"])
  | none =>
    match env.enhancedFallback with
    | some b => (b, "enhanced_fallback", ["google_tts_primary", "enhanced_fallback"])
    | none =>
      match env.enhancedWebTTS with
      | some b => (b, "enhanced_web_tts",
          ["google_tts_primary", "enhanced_fallback", "enhanced_web_tts"])
      | none =>
        match env.advancedPlaceholder with
        | some b => (b, "advanced_placeholder",
            ["google_tts_primary", "enhanced_fallback", "enhanced_web_tts",
             "advanced_placeholder"])
        | none =>
          (env.placeholderFfmpeg.getD (createSilentWav (placeholderDuration cleanText)),
           "basic_placeholder",
           ["google_tts_primary", "enhanced_fallback", "enhanced_web_tts",
            "advanced_placeholder", "basic_placeholder"])

/-- Embedding of `generateTikTokVoice` (lines 76–255). -/
def generateTikTokVoice (env : TikTokEnv) (text : List Char) (speed : ℚ) (voice : String) :
    TikTokRun :=
  let cleanText := cloudinaryCleanTextForTTS "en" text
  if cleanText.isEmpty then
    { result := Except.error "Audio generation failed: No valid text provided for TTS generation"
      invoked := []
      ttsInput := none
      fileBytes := []
      tempFileDeleted := false }
  else
    let bytes := (fallbackCascade env cleanText).1
    let generationMethod := (fallbackCascade env cleanText).2.1
    let invoked := (fallbackCascade env cleanText).2.2
    -- lines 171–184: an empty generated file is recreated as a silent WAV
    let fileBytes :=
      if bytes.isEmpty then createSilentWav (estimateAudioDuration cleanText) else bytes
    match env.upload with
    | some uploadResult =>
      -- upload succeeded: temp file deleted (lines 220–228)
      { result := Except.ok
          { success := true
            audioUrl := uploadResult.secure_url
            publicId := uploadResult.public_id
            duration := uploadResult.duration.getD (estimateAudioDuration cleanText)
            metadata :=
              { voice := voice, speed := speed
                textLength := cleanText.length
                estimatedWords := cleanText.length / 5
                audioGenerated := true
                method := generationMethod
                fileSize := uploadResult.bytes } }
        invoked := invoked
        ttsInput := some cleanText
        fileBytes := fileBytes
        tempFileDeleted := true }
    | none =>
      -- upload failed: mock local result, temp file kept (lines 203–218)
      { result := Except.ok
          { success := true
            audioUrl := "file://" ++ env.tempPath
            publicId := "local_audio_" ++ env.nowId
            duration := estimateAudioDuration cleanText
            metadata :=
              { voice := voice, speed := speed
                textLength := cleanText.length
                estimatedWords := cleanText.length / 5
                audioGenerated := true
                method := generationMethod
                fileSize := 0 } }
        invoked := invoked
        ttsInput := some cleanText
        fileBytes := fileBytes
        tempFileDeleted := false }

/-- Embedding of `generateAudio` (lines 786–816): boundary validation then delegation to
`generateTikTokVoice`. -/
def generateAudio (env : TikTokEnv) (text : List Char) (language : String)
    (speed : ℚ) (voice : String) : TikTokRun :=
  let cleanText := cloudinaryCleanTextForTTS language text
  if cleanText.isEmpty || cleanText.length < 10 then
    { result := Except.error "Text too short or invalid for audio generation"
      invoked := [], ttsInput := none, fileBytes := [], tempFileDeleted := false }
  else if 10000 < cleanText.length then
    { result := Except.error "Text too long for audio generation (max 5000 characters)"
      invoked := [], ttsInput := none, fileBytes := [], tempFileDeleted := false }
  else generateTikTokVoice env cleanText speed voice

/-! ## Auxiliary definitions used by the verification statements -/

/-- Does a run end in a thrown error? -/
def resultIsError : Except String GenResult → Bool
  | Except.error _ => true
  | Except.ok _ => false

/-- The thrown message, if any. -/
def resultErrorMsg : Except String GenResult → Option String
  | Except.error e => some e
  | Except.ok _ => none

/-- The canonical 44-byte RIFF/fmt/data header of an uncompressed PCM WAV
file — format tag 1, 44100 Hz, mono, 16 bits per sample — for the given
data-chunk size, written per the WAV specification (all multi-byte fields
little-endian).  This is the specification-side description ("canonical
44-byte RIFF header + PCM data, byte-exact per the WAV specification") that
`createSilentWav` is compared against. -/
def canonicalWavHeader (dataSize : Nat) : List Nat :=
  asciiBytes "RIFF" ++ u32le (36 + dataSize) ++ asciiBytes "WAVE" ++
  asciiBytes "fmt " ++ u32le 16 ++ u16le 1 ++ u16le 1 ++ u32le 44100 ++
  u32le 88200 ++ u16le 2 ++ u16le 16 ++
  asciiBytes "data" ++ u32le dataSize

/-- Specification-side silent WAV of an integral duration `d` seconds:
canonical header plus `44100 * 2 * d` zero bytes. -/
def silentWavSpec (d : Nat) : List Nat :=
  canonicalWavHeader (44100 * 2 * d) ++ List.replicate (44100 * 2 * d) 0

/-- A concrete environment in which every external strategy and the upload
succeed. -/
def envAllSucceed : TikTokEnv :=
  { googleTTS := some [1, 2, 3]
    enhancedFallback := some [4]
    enhancedWebTTS := some [5]
    advancedPlaceholder := some [6]
    placeholderFfmpeg := some [7]
    upload := some { secure_url := "https://res.cloudinary.example/a.mp3"
                     public_id := "voice-ai-audio/a", bytes := 2048, duration := some 12 }
    tempPath := "/app/temp/temp_1_x.mp3"
    nowId := "1700000000000" }

/-- An input whose first cleaning pass manufactures a URL (the word-count
regex deletes `1 words` from `https:1 words//fffff`, leaving
`https://fffff`), which the second cleaning pass then deletes entirely. -/
def hiddenUrlText : List Char := "https:1 words//fffff".toList

/-! ## Supporting lemmas -/

theorem floor_mul_natCast (D : Nat) :
    (Int.floor ((44100 : ℚ) * (D : ℚ))).toNat = 44100 * D := by
  have h : ((44100 : ℚ) * (D : ℚ)) = ((44100 * D : ℕ) : ℚ) := by push_cast; ring
  rw [h, Int.floor_natCast, Int.toNat_natCast]

theorem createSilentWav_of_floor (n : Nat) (q : ℚ)
    (hq : (Int.floor ((44100 : ℚ) * q)).toNat = n) :
    createSilentWav q = canonicalWavHeader (n * 2) ++ List.replicate (n * 2) 0 := by
  simp only [createSilentWav, canonicalWavHeader]
  norm_num [hq]

theorem canonicalWavHeader_length (dataSize : Nat) :
    (canonicalWavHeader dataSize).length = 44 := rfl

/-! ## C3 — silent WAV construction -/

/-- C3: for every non-negative integer duration `D` (with the size fields
in 32-bit range), `createSilentWav` produces exactly the canonical 44-byte
RIFF/fmt/data header (PCM format 1, 44100 Hz, mono, 16-bit) followed by
zero-filled sample data of `44100 * 2 * D` bytes, for a total of
`44 + 44100 * 2 * D` bytes. -/
theorem createSilentWav_canonical (D : Nat) (_bound : 36 + 44100 * 2 * D < 2 ^ 32) :
    createSilentWav ((D : Nat) : ℚ) = silentWavSpec D ∧
    (createSilentWav ((D : Nat) : ℚ)).length = 44 + 44100 * 2 * D ∧
    ∀ b ∈ (createSilentWav ((D : Nat) : ℚ)).drop 44, b = 0 := by
  have hspec : silentWavSpec D =
      canonicalWavHeader (44100 * 2 * D) ++ List.replicate (44100 * 2 * D) 0 := rfl
  have h2 : 44100 * D * 2 = 44100 * 2 * D := by ring
  have heq : createSilentWav ((D : Nat) : ℚ) = silentWavSpec D := by
    rw [createSilentWav_of_floor (44100 * D) (D : ℚ) (floor_mul_natCast D), hspec, h2]
  refine ⟨heq, ?_, ?_⟩
  · rw [heq, hspec, List.length_append, canonicalWavHeader_length, List.length_replicate]
  · intro b hb
    rw [heq, hspec, List.drop_left' (canonicalWavHeader_length _)] at hb
    exact List.eq_of_mem_replicate hb

theorem createSilentWav_canonical_witness :
    36 + 44100 * 2 * 2 < 2 ^ 32 ∧
    createSilentWav ((2 : Nat) : ℚ) = silentWavSpec 2 :=
  ⟨by norm_num, (createSilentWav_canonical 2 (by norm_num)).1⟩

/-! ## C8 — audio combiner -/

/-- C8: the combiner returns a single segment unchanged, and with the
muxing tool unavailable it returns the byte-wise concatenation of the
segment buffers in their given order. -/
theorem combine_single_and_fallback_concat (ffmpegConcat : Option (List Nat))
    (b : List Nat) (audioBuffers : List (List Nat)) :
    combineAudioBuffers ffmpegConcat [b] = b ∧
    combineAudioBuffers none audioBuffers = audioBuffers.flatten := by
  constructor
  · simp [combineAudioBuffers]
  · match audioBuffers with
    | [] => simp [combineAudioBuffers]
    | [x] => simp [combineAudioBuffers]
    | x :: y :: rest => simp [combineAudioBuffers]

/-! ## C2 — strategy priority order -/

/-- C2: when the first three strategies fail and the fourth succeeds, the
returned metadata `method` is the fourth strategy's identifier
`advanced_placeholder`, and the fifth strategy is not invoked (the invoked
list is exactly the first four, in priority order). -/
theorem fallback_fourth_strategy_method (env : TikTokEnv) (text : List Char)
    (b : List Nat) (speed : ℚ) (voice : String)
    (h1 : env.googleTTS = none) (h2 : env.enhancedFallback = none)
    (h3 : env.enhancedWebTTS = none) (h4 : env.advancedPlaceholder = some b)
    (h5 : (cloudinaryCleanTextForTTS "en" text).isEmpty = false) :
    (∃ r, (generateTikTokVoice env text speed voice).result = Except.ok r ∧
        r.metadata.method = "advanced_placeholder") ∧
    (generateTikTokVoice env text speed voice).invoked =
      ["google_tts_primary", "enhanced_fallback", "enhanced_web_tts",
       "advanced_placeholder"] := by
  cases hu : env.upload <;>
    simp [generateTikTokVoice, fallbackCascade, h1, h2, h3, h4, h5, hu]

theorem fallback_fourth_strategy_method_witness :
    let env : TikTokEnv :=
      { envAllSucceed with googleTTS := none, enhancedFallback := none, enhancedWebTTS := none }
    (∃ r, (generateTikTokVoice env "Hello there friend.".toList 1 "en_us_001").result =
          Except.ok r ∧ r.metadata.method = "advanced_placeholder") ∧
    (generateTikTokVoice env "Hello there friend.".toList 1 "en_us_001").invoked =
      ["google_tts_primary", "enhanced_fallback", "enhanced_web_tts",
       "advanced_placeholder"] :=
  fallback_fourth_strategy_method _ _ [6] 1 "en_us_001" rfl rfl rfl rfl (by decide)

/-! ## C9 — temp file deleted only after successful upload -/

/-- C9: the temporary file is deleted exactly when the upload succeeds; on
upload failure it is retained and the returned reference is the local
`file://` path of the temp file. -/
theorem upload_failure_retains_local_file (env : TikTokEnv) (text : List Char)
    (speed : ℚ) (voice : String)
    (h : (cloudinaryCleanTextForTTS "en" text).isEmpty = false) :
    ((generateTikTokVoice env text speed voice).tempFileDeleted = true ↔
      env.upload.isSome = true) ∧
    (env.upload = none →
      (generateTikTokVoice env text speed voice).tempFileDeleted = false ∧
      ∃ r, (generateTikTokVoice env text speed voice).result = Except.ok r ∧
        r.audioUrl = "file://" ++ env.tempPath) := by
  cases hu : env.upload <;>
    simp [generateTikTokVoice, h, hu]

theorem upload_failure_retains_local_file_witness :
    let env : TikTokEnv := { envAllSucceed with upload := none }
    ((generateTikTokVoice env "Hello there friend.".toList 1 "en_us_001").tempFileDeleted = true ↔
      env.upload.isSome = true) ∧
    (env.upload = none →
      (generateTikTokVoice env "Hello there friend.".toList 1 "en_us_001").tempFileDeleted = false ∧
      ∃ r, (generateTikTokVoice env "Hello there friend.".toList 1 "en_us_001").result =
            Except.ok r ∧
        r.audioUrl = "file://" ++ env.tempPath) :=
  upload_failure_retains_local_file _ _ 1 "en_us_001" (by decide)

/-! ## C10 — the text is cleaned twice -/

/-- C10: past validation, the text handed to the synthesis strategies (and
measured by the `textLength` metadata) is
`cleanTextForTTS(cleanTextForTTS(text, language), "en")` — the first pass
uses the caller's language, the second (inside `generateTikTokVoice`) the
default `"en"`, so the Nepali rules can only act in the first pass. -/
theorem double_cleaning_metadata (env : TikTokEnv) (text : List Char) (language : String)
    (speed : ℚ) (voice : String)
    (h1 : 10 ≤ (cloudinaryCleanTextForTTS language text).length)
    (h2 : (cloudinaryCleanTextForTTS language text).length ≤ 10000)
    (h3 : (cloudinaryCleanTextForTTS "en" (cloudinaryCleanTextForTTS language text)).isEmpty
          = false) :
    (generateAudio env text language speed voice).ttsInput =
      some (cloudinaryCleanTextForTTS "en" (cloudinaryCleanTextForTTS language text)) ∧
    ∃ r, (generateAudio env text language speed voice).result = Except.ok r ∧
      r.metadata.textLength =
        (cloudinaryCleanTextForTTS "en" (cloudinaryCleanTextForTTS language text)).length := by
  have hne : (cloudinaryCleanTextForTTS language text).isEmpty = false := by
    cases hh : (cloudinaryCleanTextForTTS language text).isEmpty
    · rfl
    · rw [List.isEmpty_iff] at hh
      rw [hh] at h1
      simp at h1
  have hlt : ¬ (cloudinaryCleanTextForTTS language text).length < 10 := by omega
  have hgt : ¬ 10000 < (cloudinaryCleanTextForTTS language text).length := by omega
  cases hu : env.upload <;>
    simp [generateAudio, generateTikTokVoice, hne, hlt, hgt, h3, hu]

theorem double_cleaning_metadata_witness :
    (generateAudio envAllSucceed "Hello there friend.".toList "ne" 1 "en_us_001").ttsInput =
      some (cloudinaryCleanTextForTTS "en"
        (cloudinaryCleanTextForTTS "ne" "Hello there friend.".toList)) ∧
    ∃ r, (generateAudio envAllSucceed "Hello there friend.".toList "ne" 1 "en_us_001").result =
          Except.ok r ∧
      r.metadata.textLength =
        (cloudinaryCleanTextForTTS "en"
          (cloudinaryCleanTextForTTS "ne" "Hello there friend.".toList)).length :=
  double_cleaning_metadata envAllSucceed _ "ne" 1 "en_us_001" (by decide) (by decide) (by decide)

/-! ## C1 — totality of the fallback cascade -/

theorem createSilentWav_head (q : ℚ) : (createSilentWav q).head? = some 82 := rfl

theorem createSilentWav_ne_nil (q : ℚ) : createSilentWav q ≠ [] := by
  intro h
  have hh := createSilentWav_head q
  rw [h] at hh
  cases hh

theorem generateTikTokVoice_fileBytes_ne_nil (env : TikTokEnv) (text : List Char)
    (speed : ℚ) (voice : String)
    (h : (cloudinaryCleanTextForTTS "en" text).isEmpty = false) :
    (generateTikTokVoice env text speed voice).fileBytes ≠ [] := by
  have key : ∀ c : List Char,
      (if (fallbackCascade env c).1.isEmpty then createSilentWav (estimateAudioDuration c)
       else (fallbackCascade env c).1) ≠ [] := by
    intro c
    split
    · exact createSilentWav_ne_nil _
    · next hb =>
      intro hnil
      exact hb (by rw [hnil]; rfl)
  cases hu : env.upload <;>
    simp only [generateTikTokVoice, h, Bool.false_eq_true, if_false, hu] <;>
      exact key _

/-- C1 (amended): for every input whose first-pass cleaned text is within
the validation bounds and whose second-pass cleaned text is non-empty,
`generateAudio` returns success — no strategy-level error reaches the
caller — and the produced audio file bytes are non-empty, whatever the
outcome of every fallible strategy and of the upload. -/
theorem generateAudio_succeeds_amended (env : TikTokEnv) (text : List Char)
    (language : String) (speed : ℚ) (voice : String)
    (h1 : 10 ≤ (cloudinaryCleanTextForTTS language text).length)
    (h2 : (cloudinaryCleanTextForTTS language text).length ≤ 10000)
    (h3 : (cloudinaryCleanTextForTTS "en" (cloudinaryCleanTextForTTS language text)).isEmpty
          = false) :
    (∃ r, (generateAudio env text language speed voice).result = Except.ok r) ∧
    (generateAudio env text language speed voice).fileBytes ≠ [] := by
  have hne : (cloudinaryCleanTextForTTS language text).isEmpty = false := by
    cases hh : (cloudinaryCleanTextForTTS language text).isEmpty
    · rfl
    · rw [List.isEmpty_iff] at hh
      rw [hh] at h1
      simp at h1
  have hlt : ¬ (cloudinaryCleanTextForTTS language text).length < 10 := by omega
  have hgt : ¬ 10000 < (cloudinaryCleanTextForTTS language text).length := by omega
  have hga : generateAudio env text language speed voice =
      generateTikTokVoice env (cloudinaryCleanTextForTTS language text) speed voice := by
    simp [generateAudio, hne, hlt, hgt]
  rw [hga]
  refine ⟨?_, generateTikTokVoice_fileBytes_ne_nil _ _ _ _ h3⟩
  cases hu : env.upload <;> simp [generateTikTokVoice, h3, hu]

theorem generateAudio_succeeds_amended_witness :
    (∃ r, (generateAudio envAllSucceed "Hello there friend.".toList "en" 1 "en_us_001").result
        = Except.ok r) ∧
    (generateAudio envAllSucceed "Hello there friend.".toList "en" 1 "en_us_001").fileBytes
        ≠ [] :=
  generateAudio_succeeds_amended envAllSucceed _ "en" 1 "en_us_001"
    (by decide) (by decide) (by decide)

/-- C1 counterexample: `https:1 words//fffff` cleans (first pass) to the
13-character `https://fffff`, passing validation, yet `generateAudio`
throws — the second cleaning pass erases the text entirely — even though
every strategy and the upload were available, and no audio bytes are
produced. -/
theorem generateAudio_error_on_valid_input :
    10 ≤ (cloudinaryCleanTextForTTS "en" hiddenUrlText).length ∧
    (cloudinaryCleanTextForTTS "en" hiddenUrlText).length ≤ 10000 ∧
    resultErrorMsg (generateAudio envAllSucceed hiddenUrlText "en" 1 "en_us_001").result =
      some "Audio generation failed: No valid text provided for TTS generation" ∧
    (generateAudio envAllSucceed hiddenUrlText "en" 1 "en_us_001").fileBytes = [] := by
  decide

/-! ## C7 — validation boundary -/

/-- C7 (amended): `generateAudio` throws exactly when the first-pass
cleaned text is shorter than 10 characters (including empty) or longer than
10000, or when the second-pass cleaning inside the orchestrator leaves
nothing; in every rejecting case no synthesis strategy has been invoked. -/
theorem validation_boundary_amended (env : TikTokEnv) (text : List Char)
    (language : String) (speed : ℚ) (voice : String) :
    (resultIsError (generateAudio env text language speed voice).result = true ↔
      ((cloudinaryCleanTextForTTS language text).length < 10 ∨
       10000 < (cloudinaryCleanTextForTTS language text).length ∨
       cloudinaryCleanTextForTTS "en" (cloudinaryCleanTextForTTS language text) = [])) ∧
    (resultIsError (generateAudio env text language speed voice).result = true →
      (generateAudio env text language speed voice).invoked = []) := by
  by_cases hlen : (cloudinaryCleanTextForTTS language text).length < 10
  · have hor : ((cloudinaryCleanTextForTTS language text).isEmpty
        || decide ((cloudinaryCleanTextForTTS language text).length < 10)) = true := by
      simp [hlen]
    simp [generateAudio, hor, resultIsError, hlen]
  · have hne : (cloudinaryCleanTextForTTS language text).isEmpty = false := by
      cases hh : (cloudinaryCleanTextForTTS language text).isEmpty
      · rfl
      · rw [List.isEmpty_iff] at hh
        rw [hh] at hlen
        simp at hlen
    by_cases hbig : 10000 < (cloudinaryCleanTextForTTS language text).length
    · simp [generateAudio, hne, hlen, hbig, resultIsError]
    · have hga : generateAudio env text language speed voice =
          generateTikTokVoice env (cloudinaryCleanTextForTTS language text) speed voice := by
        simp [generateAudio, hne, hlen, hbig]
      rw [hga]
      cases h2 : (cloudinaryCleanTextForTTS "en"
          (cloudinaryCleanTextForTTS language text)).isEmpty
      · cases hu : env.upload <;>
          simp_all [generateTikTokVoice, resultIsError, List.isEmpty_iff]
      · rw [List.isEmpty_iff] at h2
        simp [generateTikTokVoice, h2, resultIsError, hlen, hbig]

theorem validation_boundary_amended_witness :
    (resultIsError (generateAudio envAllSucceed "hi.".toList "en" 1 "en_us_001").result = true ↔
      ((cloudinaryCleanTextForTTS "en" "hi.".toList).length < 10 ∨
       10000 < (cloudinaryCleanTextForTTS "en" "hi.".toList).length ∨
       cloudinaryCleanTextForTTS "en" (cloudinaryCleanTextForTTS "en" "hi.".toList) = [])) ∧
    (resultIsError (generateAudio envAllSucceed "hi.".toList "en" 1 "en_us_001").result = true →
      (generateAudio envAllSucceed "hi.".toList "en" 1 "en_us_001").invoked = []) :=
  validation_boundary_amended envAllSucceed _ "en" 1 "en_us_001"

/-- C7 counterexample: an input rejected by `generateAudio` although its
cleaned text is neither empty, nor shorter than 10 characters, nor longer
than 10000 — and with every strategy available. -/
theorem validation_rejects_in_bounds_input :
    (cloudinaryCleanTextForTTS "en" hiddenUrlText).length = 13 ∧
    resultIsError (generateAudio envAllSucceed hiddenUrlText "en" 1 "en_us_001").result = true ∧
    (generateAudio envAllSucceed hiddenUrlText "en" 1 "en_us_001").invoked = [] := by
  decide

/-! ## C4 — idempotence of the normalizer -/

/-- C4 counterexample: neither normalizer variant is idempotent.  The
part_000 normalizer appends a comma after storytelling trigger phrases on
every application (`Welcome to our shop` gains a second comma on the second
pass); the cloudinary variant strips line-leading section numbers anew on
each pass (`1. 2. hello there` loses another number on the second pass). -/
theorem normalize_not_idempotent :
    part000CleanTextForTTS "en" (part000CleanTextForTTS "en" "Welcome to our shop".toList) ≠
      part000CleanTextForTTS "en" "Welcome to our shop".toList ∧
    cloudinaryCleanTextForTTS "en"
        (cloudinaryCleanTextForTTS "en" "1. 2. hello there".toList) ≠
      cloudinaryCleanTextForTTS "en" "1. 2. hello there".toList := by
  decide

/-- C4 (amended): the normalizers are idempotent only on inputs that avoid
the re-triggering constructs (storytelling trigger phrases, line-leading
numbering); on the specification's own representative end-to-end fixture
`Hello world. This is a test.` both variants are idempotent. -/
theorem normalize_idempotent_on_representative_input :
    part000CleanTextForTTS "en"
        (part000CleanTextForTTS "en" "Hello world. This is a test.".toList) =
      part000CleanTextForTTS "en" "Hello world. This is a test.".toList ∧
    cloudinaryCleanTextForTTS "en"
        (cloudinaryCleanTextForTTS "en" "Hello world. This is a test.".toList) =
      cloudinaryCleanTextForTTS "en" "Hello world. This is a test.".toList := by
  decide

/-! ## Identity of the cleaning passes on inert text

For the truncation analysis (C6) the pipeline must be evaluated on inputs
longer than the 2000-character cap; rather than brute-force kernel
evaluation, we prove every pass is the identity on text consisting of the
letter `a` alone. -/

theorem scanF_id_of_none (step : Option Char → List Char → Option (List Char × Nat))
    (S : Char → Prop)
    (hstep : ∀ (p : Option Char) (c : Char) (rest : List Char),
      S c → (∀ b ∈ rest, S b) → step p (c :: rest) = none) :
    ∀ (xs : List Char) (fuel : Nat) (prev : Option Char),
      (∀ b ∈ xs, S b) → scanF step fuel prev xs = xs := by
  intro xs
  induction xs with
  | nil => intro fuel prev _; cases fuel <;> rfl
  | cons c rest ih =>
    intro fuel prev hS
    cases fuel with
    | zero => rfl
    | succ f =>
      unfold scanF
      rw [hstep prev c rest (hS c (by simp)) (fun b hb => hS b (by simp [hb]))]
      rw [ih f (some c) (fun b hb => hS b (by simp [hb]))]

theorem scan_id_of_none (step : Option Char → List Char → Option (List Char × Nat))
    (S : Char → Prop)
    (hstep : ∀ (p : Option Char) (c : Char) (rest : List Char),
      S c → (∀ b ∈ rest, S b) → step p (c :: rest) = none)
    (xs : List Char) (h : ∀ b ∈ xs, S b) : scan step xs = xs :=
  scanF_id_of_none step S hstep xs xs.length none h

theorem ciPrefix_eq_false_of_not_all_a (pat : List Char)
    (hpat : ¬ ∀ p ∈ pat, p = 'a') :
    ∀ xs : List Char, (∀ b ∈ xs, b = 'a') → ciPrefix pat xs = false := by
  induction pat with
  | nil => exact absurd (by simp) hpat
  | cons p ps ih =>
    intro xs hxs
    cases xs with
    | nil => rfl
    | cons c cs =>
      have hc : c = 'a' := hxs c (by simp)
      subst hc
      show (p == lcChar 'a' && ciPrefix ps cs) = false
      by_cases hp : p = 'a'
      · subst hp
        have hps : ¬ ∀ q ∈ ps, q = 'a' := by
          intro hall
          exact hpat (by
            intro q hq
            rcases List.mem_cons.mp hq with h | h
            · exact h
            · exact hall q h)
        rw [ih hps cs (fun b hb => hxs b (by simp [hb]))]
        rfl
      · have hne : (p == lcChar 'a') = false := by
          have : lcChar 'a' = 'a' := rfl
          rw [this]
          exact beq_eq_false_iff_ne.mpr hp
        rw [hne]
        rfl

theorem triggerAltMatch_all_a (xs : List Char) (hxs : ∀ b ∈ xs, b = 'a')
    (alts : List (List Char)) (halts : ∀ alt ∈ alts, ¬ ∀ p ∈ alt, p = 'a') :
    triggerAltMatch xs alts = none := by
  induction alts with
  | nil => rfl
  | cons alt more ih =>
    unfold triggerAltMatch
    rw [ciPrefix_eq_false_of_not_all_a alt (halts alt (by simp)) xs hxs]
    exact ih (fun a ha => halts a (by simp [ha]))

theorem conclusionAltMatch_all_a (xs : List Char) (hxs : ∀ b ∈ xs, b = 'a')
    (alts : List (List Char)) (halts : ∀ alt ∈ alts, ¬ ∀ p ∈ alt, p = 'a') :
    conclusionAltMatch xs alts = none := by
  induction alts with
  | nil => rfl
  | cons alt more ih =>
    unfold conclusionAltMatch
    rw [ciPrefix_eq_false_of_not_all_a alt (halts alt (by simp)) xs hxs]
    exact ih (fun a ha => halts a (by simp [ha]))

theorem listAltMatch_all_a (xs : List Char) (hxs : ∀ b ∈ xs, b = 'a')
    (alts : List (List Char)) (halts : ∀ alt ∈ alts, ¬ ∀ p ∈ alt, p = 'a') :
    listAltMatch xs alts = none := by
  induction alts with
  | nil => rfl
  | cons alt more ih =>
    unfold listAltMatch
    rw [ciPrefix_eq_false_of_not_all_a alt (halts alt (by simp)) xs hxs]
    exact ih (fun a ha => halts a (by simp [ha]))

theorem stepHtmlTag_a (p : Option Char) (c : Char) (rest : List Char)
    (hc : c = 'a') (_ : ∀ b ∈ rest, b = 'a') : stepHtmlTag p (c :: rest) = none := by
  subst hc; rfl

theorem stepMdHeader_a (p : Option Char) (c : Char) (rest : List Char)
    (hc : c = 'a') (_ : ∀ b ∈ rest, b = 'a') : stepMdHeader p (c :: rest) = none := by
  subst hc; rfl

theorem stepUrl_a (p : Option Char) (c : Char) (rest : List Char)
    (hc : c = 'a') (_ : ∀ b ∈ rest, b = 'a') : stepUrl p (c :: rest) = none := by
  subst hc; rfl

theorem stepCountRange_a (base : List Char) (p : Option Char) (c : Char) (rest : List Char)
    (hc : c = 'a') (_ : ∀ b ∈ rest, b = 'a') : stepCountRange base p (c :: rest) = none := by
  subst hc; rfl

theorem stepCountPlain_a (base : List Char) (p : Option Char) (c : Char) (rest : List Char)
    (hc : c = 'a') (_ : ∀ b ∈ rest, b = 'a') : stepCountPlain base p (c :: rest) = none := by
  subst hc; rfl

theorem stepSectionNum_a (p : Option Char) (c : Char) (rest : List Char)
    (hc : c = 'a') (_ : ∀ b ∈ rest, b = 'a') : stepSectionNum p (c :: rest) = none := by
  subst hc
  unfold stepSectionNum
  simp [show isDigitChar 'a' = false from rfl]

theorem stepBullet_a (bullets : List Char) (hb : bullets.contains 'a' = false)
    (p : Option Char) (c : Char) (rest : List Char)
    (hc : c = 'a') (_ : ∀ b ∈ rest, b = 'a') : stepBullet bullets p (c :: rest) = none := by
  subst hc
  unfold stepBullet
  simp only [hb, Bool.and_false, Bool.false_eq_true, if_false]

theorem stepBracketNum_a (p : Option Char) (c : Char) (rest : List Char)
    (hc : c = 'a') (_ : ∀ b ∈ rest, b = 'a') : stepBracketNum p (c :: rest) = none := by
  subst hc; rfl

theorem stepParen_a (cond : List Char → Bool) (p : Option Char) (c : Char) (rest : List Char)
    (hc : c = 'a') (_ : ∀ b ∈ rest, b = 'a') : stepParen cond p (c :: rest) = none := by
  subst hc; rfl

theorem stepHashtag_a (p : Option Char) (c : Char) (rest : List Char)
    (hc : c = 'a') (_ : ∀ b ∈ rest, b = 'a') : stepHashtag p (c :: rest) = none := by
  subst hc; rfl

theorem stepMultiDot_a (p : Option Char) (c : Char) (rest : List Char)
    (hc : c = 'a') (_ : ∀ b ∈ rest, b = 'a') : stepMultiDot p (c :: rest) = none := by
  subst hc; rfl

theorem stepSpaceBeforePunct_a (p : Option Char) (c : Char) (rest : List Char)
    (hc : c = 'a') (_ : ∀ b ∈ rest, b = 'a') : stepSpaceBeforePunct p (c :: rest) = none := by
  subst hc; rfl

theorem stepPunctSpace_a (p : Option Char) (c : Char) (rest : List Char)
    (hc : c = 'a') (_ : ∀ b ∈ rest, b = 'a') : stepPunctSpace p (c :: rest) = none := by
  subst hc; rfl

theorem stepCharSpace_a (target : Char) (ht : ('a' == target) = false)
    (p : Option Char) (c : Char) (rest : List Char)
    (hc : c = 'a') (_ : ∀ b ∈ rest, b = 'a') : stepCharSpace target p (c :: rest) = none := by
  subst hc
  unfold stepCharSpace
  simp only [ht, Bool.false_eq_true, if_false]

theorem stepCollapseSpace_a (p : Option Char) (c : Char) (rest : List Char)
    (hc : c = 'a') (_ : ∀ b ∈ rest, b = 'a') : stepCollapseSpace p (c :: rest) = none := by
  subst hc; rfl

theorem stepSentenceSpacing_a (p : Option Char) (c : Char) (rest : List Char)
    (hc : c = 'a') (_ : ∀ b ∈ rest, b = 'a') : stepSentenceSpacing p (c :: rest) = none := by
  subst hc; rfl

theorem stepTrailingPunct_a (p : Option Char) (c : Char) (rest : List Char)
    (hc : c = 'a') (_ : ∀ b ∈ rest, b = 'a') : stepTrailingPunct p (c :: rest) = none := by
  subst hc; rfl

theorem stepTriggerComma_a (p : Option Char) (c : Char) (rest : List Char)
    (hc : c = 'a') (hrest : ∀ b ∈ rest, b = 'a') :
    stepTriggerComma introAlts p (c :: rest) = none := by
  subst hc
  unfold stepTriggerComma
  split
  · exact triggerAltMatch_all_a _ (by
      intro b hb
      rcases List.mem_cons.mp hb with h | h
      · exact h
      · exact hrest b h) introAlts (by decide)
  · rfl

theorem stepConclusionComma_a (p : Option Char) (c : Char) (rest : List Char)
    (hc : c = 'a') (hrest : ∀ b ∈ rest, b = 'a') :
    stepConclusionComma conclusionAlts p (c :: rest) = none := by
  subst hc
  unfold stepConclusionComma
  split
  · exact conclusionAltMatch_all_a _ (by
      intro b hb
      rcases List.mem_cons.mp hb with h | h
      · exact h
      · exact hrest b h) conclusionAlts (by decide)
  · rfl

theorem stepListComma_a (p : Option Char) (c : Char) (rest : List Char)
    (hc : c = 'a') (hrest : ∀ b ∈ rest, b = 'a') :
    stepListComma listAlts p (c :: rest) = none := by
  subst hc
  unfold stepListComma
  split
  · exact listAltMatch_all_a _ (by
      intro b hb
      rcases List.mem_cons.mp hb with h | h
      · exact h
      · exact hrest b h) listAlts (by decide)
  · rfl

theorem getD_of_all_a (l : List Char) (hl : ∀ b ∈ l, b = 'a') (i : Nat) (d : Char) :
    l.getD i d = 'a' ∨ l.getD i d = d := by
  induction l generalizing i with
  | nil => right; cases i <;> rfl
  | cons c cs ih =>
    cases i with
    | zero => left; exact hl c (by simp)
    | succ j => exact ih (fun b hb => hl b (by simp [hb])) j

theorem emailCond_all_a (tok : List Char) (h : ∀ b ∈ tok, b = 'a') :
    emailCond tok = false := by
  unfold emailCond
  rw [List.any_eq_false]
  intro i _
  have hne : (tok.getD i ' ' == '@') = false := by
    rcases getD_of_all_a tok h i ' ' with hg | hg <;> rw [hg] <;> rfl
  simp only [hne, Bool.and_false, Bool.false_and, Bool.false_eq_true, not_false_eq_true]

theorem emailPassF_all_a : ∀ (xs : List Char) (fuel : Nat),
    (∀ b ∈ xs, b = 'a') → emailPassF fuel xs = xs := by
  intro xs
  induction xs with
  | nil => intro fuel _; cases fuel <;> rfl
  | cons c rest _ =>
    intro fuel h
    have hc : c = 'a' := h c (by simp)
    subst hc
    have hrest : ∀ b ∈ rest, b = 'a' := fun b hb => h b (by simp [hb])
    cases fuel with
    | zero => rfl
    | succ f =>
      unfold emailPassF
      rw [show jsSpace 'a' = false from rfl]
      simp only [Bool.false_eq_true, if_false]
      have htw : rest.takeWhile (fun d => !jsSpace d) = rest := by
        rw [List.takeWhile_eq_self_iff]
        intro b hb
        rw [hrest b hb]
        rfl
      have hdw : rest.dropWhile (fun d => !jsSpace d) = [] := by
        rw [List.dropWhile_eq_nil_iff]
        intro b hb
        rw [hrest b hb]
        rfl
      rw [htw, hdw, emailCond_all_a ('a' :: rest) h]
      have hnil : emailPassF f [] = [] := by cases f <;> rfl
      simp [hnil]

theorem emailPass_all_a (xs : List Char) (h : ∀ b ∈ xs, b = 'a') :
    emailPass xs = xs :=
  emailPassF_all_a xs xs.length h

theorem dropWhile_eq_self_of_all_false (q : Char → Bool) (l : List Char)
    (h : ∀ b ∈ l, q b = false) : l.dropWhile q = l := by
  cases l with
  | nil => rfl
  | cons c cs =>
    rw [List.dropWhile_cons, h c (by simp)]
    simp

theorem jsTrim_of_all_nonspace (xs : List Char) (h : ∀ b ∈ xs, jsSpace b = false) :
    jsTrim xs = xs := by
  unfold jsTrim
  rw [dropWhile_eq_self_of_all_false _ _ h,
    dropWhile_eq_self_of_all_false _ _ (fun b hb => h b (List.mem_reverse.mp hb)),
    List.reverse_reverse]

theorem jsTrim_all_a (xs : List Char) (h : ∀ b ∈ xs, b = 'a') : jsTrim xs = xs :=
  jsTrim_of_all_nonspace xs (fun b hb => by rw [h b hb]; rfl)

/-- The whole part_000 pass pipeline is the identity on all-`a` text. -/
theorem part000CleanCore_all_a (xs : List Char) (h : ∀ b ∈ xs, b = 'a') :
    part000CleanCore xs = xs := by
  simp only [part000CleanCore]
  rw [scan_id_of_none _ _ stepHtmlTag_a xs h]
  rw [scan_id_of_none _ _ stepMdHeader_a xs h]
  rw [List.filter_eq_self.mpr (by intro b hb; rw [h b hb]; rfl)]
  rw [scan_id_of_none _ _ stepUrl_a xs h]
  rw [emailPass_all_a xs h]
  rw [scan_id_of_none _ _ (stepCountRange_a "word".toList) xs h]
  rw [scan_id_of_none _ _ (stepCountPlain_a "word".toList) xs h]
  rw [scan_id_of_none _ _ (stepCountRange_a "character".toList) xs h]
  rw [scan_id_of_none _ _ (stepCountPlain_a "character".toList) xs h]
  rw [scan_id_of_none _ _ stepSectionNum_a xs h]
  rw [scan_id_of_none _ _ (stepBullet_a ['-', '•', '*'] rfl) xs h]
  rw [scan_id_of_none _ _ stepBracketNum_a xs h]
  rw [scan_id_of_none _ _ (stepParen_a parenCondDigitWord) xs h]
  rw [scan_id_of_none _ _ (stepParen_a parenCondWordDigit) xs h]
  rw [scan_id_of_none _ _ stepHashtag_a xs h]
  rw [scan_id_of_none _ _ stepMultiDot_a xs h]
  rw [scan_id_of_none _ _ stepSpaceBeforePunct_a xs h]
  rw [scan_id_of_none _ _ stepPunctSpace_a xs h]
  rw [scan_id_of_none _ _ (stepCharSpace_a '.' rfl) xs h]
  rw [scan_id_of_none _ _ (stepCharSpace_a ',' rfl) xs h]
  rw [scan_id_of_none _ _ (stepCharSpace_a '!' rfl) xs h]
  rw [scan_id_of_none _ _ (stepCharSpace_a '?' rfl) xs h]
  rw [scan_id_of_none _ _ stepCollapseSpace_a xs h]
  exact jsTrim_all_a xs h

theorem part000CleanPre_en_all_a (xs : List Char) (h : ∀ b ∈ xs, b = 'a') :
    part000CleanPre "en" xs = xs := by
  simp only [part000CleanPre]
  rw [part000CleanCore_all_a xs h]
  simp only [show (("en" == "ne") = false) from rfl, Bool.false_eq_true, if_false]
  exact List.filter_eq_self.mpr (by intro b hb; rw [h b hb]; rfl)

theorem enhanceForStorytelling_all_a (xs : List Char) (h : ∀ b ∈ xs, b = 'a') :
    enhanceForStorytelling xs = xs := by
  simp only [enhanceForStorytelling, enhanceCapitalizedNames]
  rw [scan_id_of_none _ _ stepTriggerComma_a xs h]
  rw [scan_id_of_none _ _ stepConclusionComma_a xs h]
  rw [scan_id_of_none _ _ stepListComma_a xs h]
  exact scan_id_of_none _ _ stepSentenceSpacing_a xs h

/-! ## C6 — length cap and sentence-boundary truncation -/

theorem length_dropWhile_le' (q : Char → Bool) (l : List Char) :
    (l.dropWhile q).length ≤ l.length := by
  induction l with
  | nil => simp
  | cons c cs ih =>
    rw [List.dropWhile_cons]
    split
    · exact Nat.le_succ_of_le ih
    · simp

theorem jsTrim_length_le (xs : List Char) : (jsTrim xs).length ≤ xs.length := by
  have h1 : (xs.dropWhile jsSpace).length ≤ xs.length := length_dropWhile_le' _ _
  have h2 : ((xs.dropWhile jsSpace).reverse.dropWhile jsSpace).length ≤
      (xs.dropWhile jsSpace).reverse.length := length_dropWhile_le' _ _
  unfold jsTrim
  rw [List.length_reverse]
  rw [List.length_reverse] at h2
  omega

theorem accumulateSentences_length_le (cap : Nat) (ss : List (List Char)) (acc : List Char)
    (h : acc.length ≤ cap) : (accumulateSentences cap ss acc).length ≤ cap := by
  induction ss generalizing acc with
  | nil => simpa [accumulateSentences] using h
  | cons s rest ih =>
    unfold accumulateSentences
    split
    · next hc =>
      apply ih
      have ht := jsTrim_length_le s
      simp only [List.length_append] at hc ⊢
      omega
    · exact h

theorem accumulateSentences_form (cap : Nat) (ss : List (List Char)) (acc : List Char) :
    accumulateSentences cap ss acc = acc ∨
    ∃ pre, accumulateSentences cap ss acc = pre ++ ['.', ' '] := by
  induction ss generalizing acc with
  | nil => left; rfl
  | cons s rest ih =>
    unfold accumulateSentences
    split
    · rcases ih (acc ++ jsTrim s ++ ['.', ' ']) with hend | ⟨pre, hp⟩
      · right
        exact ⟨acc ++ jsTrim s, by rw [hend, List.append_assoc]⟩
      · right
        exact ⟨pre, hp⟩
    · left; rfl

theorem dropWhile_append_dot (pre : List Char) :
    ∃ w, (pre ++ ['.', ' ']).dropWhile jsSpace = w ++ ['.', ' '] := by
  induction pre with
  | nil => exact ⟨[], rfl⟩
  | cons a pre ih =>
    by_cases ha : jsSpace a
    · simpa [List.dropWhile_cons, ha] using ih
    · exact ⟨a :: pre, by simp [List.dropWhile_cons, ha]⟩

theorem jsTrim_append_dot (pre : List Char) :
    ∃ v, jsTrim (pre ++ ['.', ' ']) = v ++ ['.'] := by
  obtain ⟨w, hw⟩ := dropWhile_append_dot pre
  refine ⟨w, ?_⟩
  unfold jsTrim
  rw [hw]
  have h1 : (w ++ ['.', ' ']).reverse = ' ' :: '.' :: w.reverse := by
    rw [List.reverse_append]
    rfl
  rw [h1]
  have h2 : (' ' :: '.' :: w.reverse).dropWhile jsSpace = '.' :: w.reverse := by
    rw [List.dropWhile_cons]
    simp only [show jsSpace ' ' = true from rfl, if_true]
    rw [List.dropWhile_cons]
    simp only [show jsSpace '.' = false from rfl, Bool.false_eq_true, if_false]
  rw [h2, List.reverse_cons, List.reverse_reverse]

/-- C6 (amended): whenever the cleaned text exceeds the per-language cap,
the truncation step yields text within the cap, and the cut is at a
sentence boundary (the result ends with a period) whenever at least one
sentence prefix fits — otherwise the text is hard-truncated to exactly the
cap, mid-sentence. -/
theorem truncation_cap_amended (cap : Nat) (s : List Char) (h : cap < s.length) :
    (truncateAtCap cap s).length ≤ cap ∧
    ((truncateAtCap cap s).getLastD ' ' = '.' ∨ truncateAtCap cap s = s.take cap) := by
  unfold truncateAtCap
  simp only [h, if_true]
  rcases accumulateSentences_form cap (jsSplitRuns isTerminator s) [] with hform | ⟨pre, hform⟩
  · rw [hform]
    simp only [show jsTrim ([] : List Char) = [] from rfl, List.isEmpty_nil, if_true]
    refine ⟨?_, Or.inr trivial⟩
    rw [List.length_take]
    omega
  · rw [hform]
    obtain ⟨v, hv⟩ := jsTrim_append_dot pre
    rw [hv]
    have hne : (v ++ ['.']).isEmpty = false := by
      cases v <;> rfl
    simp only [hne, Bool.false_eq_true, if_false]
    constructor
    · have h2 := accumulateSentences_length_le cap (jsSplitRuns isTerminator s) [] (by simp)
      rw [hform] at h2
      have h3 := jsTrim_length_le (pre ++ ['.', ' '])
      rw [hv] at h3
      omega
    · left
      exact List.getLastD_concat _ _ _

theorem truncation_cap_amended_witness :
    2000 < (List.replicate 2001 'a').length ∧
    ((truncateAtCap 2000 (List.replicate 2001 'a')).length ≤ 2000 ∧
     ((truncateAtCap 2000 (List.replicate 2001 'a')).getLastD ' ' = '.' ∨
       truncateAtCap 2000 (List.replicate 2001 'a') = (List.replicate 2001 'a').take 2000)) :=
  ⟨by rw [List.length_replicate]; norm_num,
   truncation_cap_amended 2000 _ (by rw [List.length_replicate]; norm_num)⟩

theorem jsSplitRunsF_no_sep (q : Char → Bool) (xs : List Char) :
    ∀ (fuel : Nat), xs.length ≤ fuel → (∀ c ∈ xs, q c = false) →
    jsSplitRunsF q fuel xs = [xs] := by
  induction xs with
  | nil => intro fuel _ _; cases fuel <;> rfl
  | cons c rest ih =>
    intro fuel hfuel h
    cases fuel with
    | zero => simp at hfuel
    | succ f =>
      unfold jsSplitRunsF
      rw [h c (by simp)]
      simp only [Bool.false_eq_true, if_false]
      rw [ih f (by simpa using Nat.le_of_succ_le_succ hfuel)
        (fun d hd => h d (by simp [hd]))]

theorem jsSplitRuns_no_sep (q : Char → Bool) (xs : List Char)
    (h : ∀ c ∈ xs, q c = false) : jsSplitRuns q xs = [xs] :=
  jsSplitRunsF_no_sep q xs xs.length le_rfl h

theorem truncateAtCap_replicate_a :
    truncateAtCap 2000 (List.replicate 2001 'a') = List.replicate 2000 'a' := by
  unfold truncateAtCap
  simp only [List.length_replicate, show (2000 < 2001) = True from eq_true (by norm_num),
    if_true]
  rw [jsSplitRuns_no_sep isTerminator _
    (fun c hc => by rw [List.eq_of_mem_replicate hc]; rfl)]
  have hacc : accumulateSentences 2000 [List.replicate 2001 'a'] [] = [] := by
    unfold accumulateSentences
    have hlen : ¬ (([] ++ List.replicate 2001 'a' ++ ['.', ' ']).length ≤ 2000) := by
      rw [List.nil_append, List.length_append, List.length_replicate]
      norm_num
    simp only [hlen, if_false]
  rw [hacc]
  simp only [show jsTrim ([] : List Char) = [] from rfl, List.isEmpty_nil, if_true]
  rw [List.take_replicate, show min 2000 2001 = 2000 from by norm_num]

theorem part000Clean_replicate_a :
    part000CleanTextForTTS "en" (List.replicate 2001 'a') = List.replicate 2000 'a' := by
  have hmem : ∀ b ∈ List.replicate 2001 'a', b = 'a' :=
    fun b hb => List.eq_of_mem_replicate hb
  have hmem2000 : ∀ b ∈ List.replicate 2000 'a', b = 'a' :=
    fun b hb => List.eq_of_mem_replicate hb
  simp only [part000CleanTextForTTS]
  rw [part000CleanPre_en_all_a _ hmem]
  simp only [show (("en" == "ne") = false) from rfl, Bool.false_eq_true, if_false]
  rw [truncateAtCap_replicate_a, enhanceForStorytelling_all_a _ hmem2000,
    jsTrim_all_a _ hmem2000]

/-- C6 counterexample: 2001 letters `a` clean to a text over the cap
(2001 characters, no sentence terminator anywhere), and the normalizer
hard-truncates it to exactly 2000 characters — a cut that is not at a
sentence boundary (the output does not end in a terminator), contradicting
"truncated at the last sentence boundary that fits, never mid-sentence". -/
theorem truncation_mid_sentence :
    2000 < (part000CleanPre "en" (List.replicate 2001 'a')).length ∧
    part000CleanTextForTTS "en" (List.replicate 2001 'a') = List.replicate 2000 'a' ∧
    isTerminator ((part000CleanTextForTTS "en" (List.replicate 2001 'a')).getLastD ' ')
      = false := by
  refine ⟨?_, part000Clean_replicate_a, ?_⟩
  · rw [part000CleanPre_en_all_a _ (fun b hb => List.eq_of_mem_replicate hb),
      List.length_replicate]
    norm_num
  · rw [part000Clean_replicate_a]
    have : (List.replicate 2000 'a').getLastD ' ' = 'a' := by
      rw [show (List.replicate 2000 'a') = List.replicate 1999 'a' ++ ['a'] from by
        rw [← List.replicate_succ']]
      exact List.getLastD_concat _ _ _
    rw [this]
    rfl

/-! ## C5 — chunker boundary behaviour -/

theorem intercalate_singleton_sp (w : List Char) : List.intercalate [' '] [w] = w := by
  simp [List.intercalate]

theorem intercalate_cons_cons_sp (w v : List Char) (ws : List (List Char)) :
    List.intercalate [' '] (w :: v :: ws) = w ++ [' '] ++ List.intercalate [' '] (v :: ws) := by
  simp [List.intercalate, List.intersperse_cons_cons]

theorem mem_intercalate_space (ws : List (List Char)) (c : Char)
    (hc : c ∈ List.intercalate [' '] ws) : c = ' ' ∨ ∃ w ∈ ws, c ∈ w := by
  induction ws with
  | nil => simp [List.intercalate] at hc
  | cons w ws' ih =>
    cases ws' with
    | nil =>
      right
      exact ⟨w, by simp, by rwa [intercalate_singleton_sp] at hc⟩
    | cons v ws'' =>
      rw [intercalate_cons_cons_sp] at hc
      rcases List.mem_append.mp hc with h | h
      · rcases List.mem_append.mp h with h1 | h1
        · right; exact ⟨w, by simp, h1⟩
        · left; simpa using h1
      · rcases ih h with h | ⟨u, hu, hcu⟩
        · left; exact h
        · right; exact ⟨u, by simp [hu], hcu⟩

theorem intercalate_starts_with_word (w : List Char) (ws : List (List Char)) :
    ∃ t, List.intercalate [' '] (w :: ws) = w ++ t := by
  cases ws with
  | nil => exact ⟨[], by rw [intercalate_singleton_sp, List.append_nil]⟩
  | cons v ws' =>
    exact ⟨[' '] ++ List.intercalate [' '] (v :: ws'), by
      rw [intercalate_cons_cons_sp, List.append_assoc]⟩

theorem intercalate_ends_with_word (w : List Char) (ws : List (List Char)) :
    ∃ u, u ∈ w :: ws ∧ ∃ t, List.intercalate [' '] (w :: ws) = t ++ u := by
  induction ws generalizing w with
  | nil => exact ⟨w, by simp, [], by rw [intercalate_singleton_sp, List.nil_append]⟩
  | cons v ws' ih =>
    obtain ⟨u, hu, t, ht⟩ := ih v
    refine ⟨u, ?_, w ++ [' '] ++ t, ?_⟩
    · rcases List.mem_cons.mp hu with h | h
      · simp [h]
      · simp [h]
    · rw [intercalate_cons_cons_sp, ht, List.append_assoc, List.append_assoc,
        List.append_assoc]

theorem jsTrim_intercalate (w : List Char) (ws : List (List Char))
    (h : ∀ u ∈ w :: ws, u ≠ [] ∧ ∀ c ∈ u, jsSpace c = false) :
    jsTrim (List.intercalate [' '] (w :: ws)) = List.intercalate [' '] (w :: ws) := by
  unfold jsTrim
  obtain ⟨t, ht⟩ := intercalate_starts_with_word w ws
  obtain ⟨hwne, hwns⟩ := h w (by simp)
  have hd1 : (List.intercalate [' '] (w :: ws)).dropWhile jsSpace =
      List.intercalate [' '] (w :: ws) := by
    rw [ht]
    cases w with
    | nil => exact absurd rfl hwne
    | cons a w' =>
      rw [List.cons_append, List.dropWhile_cons, hwns a (by simp)]
      simp
  rw [hd1]
  obtain ⟨u, hu, t2, ht2⟩ := intercalate_ends_with_word w ws
  obtain ⟨hune, huns⟩ := h u hu
  have hd2 : (List.intercalate [' '] (w :: ws)).reverse.dropWhile jsSpace =
      (List.intercalate [' '] (w :: ws)).reverse := by
    cases hru : u.reverse with
    | nil => exact absurd (by simpa using congrArg List.reverse hru) hune
    | cons b bs =>
      have hbu : b ∈ u := List.mem_reverse.mp (by rw [hru]; simp)
      have hrev : (List.intercalate [' '] (w :: ws)).reverse = b :: (bs ++ t2.reverse) := by
        rw [ht2, List.reverse_append, hru, List.cons_append]
      rw [hrev, List.dropWhile_cons, huns b hbu]
      simp
  rw [hd2, List.reverse_reverse]

theorem wordStep_foldl_invariant (m : Nat) (ws : List (List Char)) :
    ∀ (chunks : List (List Char)) (wc : List Char),
    (∀ w ∈ ws, w ≠ [] ∧ w.length ≤ m) →
    (∀ ch ∈ chunks, ch.length ≤ m + 1) →
    wc.length ≤ m →
    (∀ ch ∈ (ws.foldl (wordStep m) (chunks, wc)).1, ch.length ≤ m + 1) ∧
    (ws.foldl (wordStep m) (chunks, wc)).2.length ≤ m ∧
    ((wc ≠ [] ∨ ws ≠ []) → (ws.foldl (wordStep m) (chunks, wc)).2 ≠ []) := by
  induction ws with
  | nil =>
    intro chunks wc _ hch hwc
    refine ⟨hch, hwc, ?_⟩
    intro h
    rcases h with h | h
    · exact h
    · exact absurd rfl h
  | cons w ws' ih =>
    intro chunks wc hws hch hwc
    obtain ⟨hwne, hwle⟩ := hws w (by simp)
    have hws' : ∀ v ∈ ws', v ≠ [] ∧ v.length ≤ m := fun v hv => hws v (by simp [hv])
    rw [List.foldl_cons]
    cases wc with
    | nil =>
      have hstep : wordStep m (chunks, []) w = (chunks, w) := by
        unfold wordStep
        simp [hwle]
      rw [hstep]
      have hr := ih chunks w hws' hch hwle
      exact ⟨hr.1, hr.2.1, fun _ => hr.2.2 (Or.inl hwne)⟩
    | cons a wc' =>
      by_cases hp : ((a :: wc') ++ [' '] ++ w).length ≤ m
      · have hstep : wordStep m (chunks, a :: wc') w =
            (chunks, (a :: wc') ++ [' '] ++ w) := by
          unfold wordStep
          simp only [List.isEmpty_cons, Bool.false_eq_true, if_false, hp, if_true]
        rw [hstep]
        have hr := ih chunks _ hws' hch hp
        exact ⟨hr.1, hr.2.1, fun _ => hr.2.2 (Or.inl (by simp))⟩
      · have hstep : wordStep m (chunks, a :: wc') w =
            (chunks ++ [(a :: wc') ++ ['.']], w) := by
          unfold wordStep
          simp only [List.isEmpty_cons, Bool.false_eq_true, if_false, hp, Bool.not_false,
            if_true]
        rw [hstep]
        have hch' : ∀ ch ∈ chunks ++ [(a :: wc') ++ ['.']], ch.length ≤ m + 1 := by
          intro ch hc
          rcases List.mem_append.mp hc with hin | hin
          · exact hch ch hin
          · rw [List.mem_singleton.mp hin, List.length_append]
            have h1 : (['.'] : List Char).length = 1 := rfl
            have h2 : (a :: wc').length = wc'.length + 1 := by simp
            omega
        have hr := ih (chunks ++ [(a :: wc') ++ ['.']]) w hws' hch' hwle
        exact ⟨hr.1, hr.2.1, fun _ => hr.2.2 (Or.inl hwne)⟩

/-- C5 (amended): (1) an input of exactly `maxChunkLength` characters with
no sentence terminator produces exactly one chunk; (2) an input of
`maxChunkLength*2 + 1` characters of space-separated terminator-free words,
each within the limit, is word-level packed into chunks none of which
exceeds `maxChunkLength + 1` characters — the `+ 1` (absent from the
original claim) is the sentence terminator the chunker appends to every
chunk it emits. -/
theorem chunker_boundary_amended :
    (∀ (text : List Char) (m : Nat), text.length = m →
      (∀ c ∈ text, isTerminator c = false) →
      (splitTextIntoChunks text m).length = 1) ∧
    (∀ (ws : List (List Char)) (m : Nat),
      (∀ w ∈ ws, w ≠ [] ∧ (∀ c ∈ w, jsSpace c = false ∧ isTerminator c = false) ∧
        w.length ≤ m) →
      (List.intercalate [' '] ws).length = 2 * m + 1 →
      ∀ chunk ∈ splitTextIntoChunks (List.intercalate [' '] ws) m,
        chunk.length ≤ m + 1) := by
  constructor
  · intro text m hlen hterm
    simp only [splitTextIntoChunks]
    rw [jsSplitRuns_no_sep isTerminator text hterm]
    cases hemp : (jsTrim text).isEmpty with
    | true =>
      have hfil : List.filter (fun s => !(jsTrim s).isEmpty) [text] = [] := by
        simp [List.filter_cons, hemp]
      rw [hfil]
      rfl
    | false =>
      have hfil : List.filter (fun s => !(jsTrim s).isEmpty) [text] = [text] := by
        simp [List.filter_cons, hemp]
      rw [hfil]
      have hle : (jsTrim text).length ≤ m := hlen ▸ jsTrim_length_le text
      have hstep : sentenceStep m ([], []) text = ([], jsTrim text) := by
        unfold sentenceStep
        simp [hemp, hle]
      rw [List.foldl_cons, List.foldl_nil, hstep]
      simp [hemp]
  · intro ws m hws hlen chunk hchunk
    cases ws with
    | nil => simp [List.intercalate] at hlen
    | cons w ws' =>
      have hterm : ∀ c ∈ List.intercalate [' '] (w :: ws'), isTerminator c = false := by
        intro c hc
        rcases mem_intercalate_space _ c hc with h | ⟨u, hu, hcu⟩
        · rw [h]; rfl
        · exact ((hws u hu).2.1 c hcu).2
      have htrim : jsTrim (List.intercalate [' '] (w :: ws')) =
          List.intercalate [' '] (w :: ws') :=
        jsTrim_intercalate w ws'
          (fun u hu => ⟨(hws u hu).1, fun c hc => ((hws u hu).2.1 c hc).1⟩)
      have hne : (List.intercalate [' '] (w :: ws')).isEmpty = false := by
        cases htext : List.intercalate [' '] (w :: ws') with
        | nil => rw [htext] at hlen; simp at hlen
        | cons a l => rfl
      have hm : ¬ (List.intercalate [' '] (w :: ws')).length ≤ m := by
        rw [hlen]
        omega
      have hsplit : (List.intercalate [' '] (w :: ws')).splitOn ' ' = w :: ws' := by
        refine List.splitOn_intercalate _ ' ' ?_ (by simp)
        intro l hl hmem
        exact absurd (((hws l hl).2.1 ' ' hmem).1) (by decide)
      simp only [splitTextIntoChunks] at hchunk
      rw [jsSplitRuns_no_sep isTerminator _ hterm] at hchunk
      have hfil : List.filter (fun s => !(jsTrim s).isEmpty)
          [List.intercalate [' '] (w :: ws')] = [List.intercalate [' '] (w :: ws')] := by
        rw [List.filter_cons]
        rw [htrim]
        simp [hne]
      rw [hfil, List.foldl_cons, List.foldl_nil] at hchunk
      have hstep : sentenceStep m ([], []) (List.intercalate [' '] (w :: ws')) =
          (w :: ws').foldl (wordStep m) ([], []) := by
        unfold sentenceStep
        rw [htrim]
        simp [hne, hm, hsplit, htrim]
      rw [hstep] at hchunk
      obtain ⟨hch, hwcle, hwcne⟩ := wordStep_foldl_invariant m (w :: ws') [] []
        (fun v hv => ⟨(hws v hv).1, (hws v hv).2.2⟩) (by simp) (by simp)
      have hwne : ((w :: ws').foldl (wordStep m) ([], [])).2 ≠ [] :=
        hwcne (Or.inr (by simp))
      have hemp : ((w :: ws').foldl (wordStep m) ([], [])).2.isEmpty = false := by
        cases hfold : ((w :: ws').foldl (wordStep m) ([], [])).2 with
        | nil => exact absurd hfold hwne
        | cons a l => rfl
      simp only [hemp, Bool.not_false, if_true] at hchunk
      rw [if_pos (by simp)] at hchunk
      rcases List.mem_append.mp hchunk with hin | hin
      · exact hch chunk hin
      · rw [List.mem_singleton.mp hin, List.length_append]
        have h1 : (['.'] : List Char).length = 1 := rfl
        omega

theorem chunker_boundary_amended_witness :
    (splitTextIntoChunks (List.replicate 5 'b') 5).length = 1 ∧
    (∀ chunk ∈ splitTextIntoChunks
        (List.intercalate [' '] [['a', 'a'], ['a', 'a'], ['a', 'a'], ['a', 'a']]) 5,
      chunk.length ≤ 5 + 1) :=
  ⟨chunker_boundary_amended.1 (List.replicate 5 'b') 5 (by decide) (by decide),
   chunker_boundary_amended.2 [['a', 'a'], ['a', 'a'], ['a', 'a'], ['a', 'a']] 5
     (by decide) (by decide)⟩

/-- C5 counterexample: `aa aa aa aa` has `2*5 + 1` characters and no
sentence terminator, yet splitting with `maxChunkLength = 5` produces a
chunk of 6 characters (`aa aa.`) — the appended period pushes chunks past
the claimed bound. -/
theorem chunker_chunk_exceeds_max :
    ("aa aa aa aa".toList).length = 2 * 5 + 1 ∧
    (∀ c ∈ "aa aa aa aa".toList, isTerminator c = false) ∧
    ∃ chunk ∈ splitTextIntoChunks "aa aa aa aa".toList 5, 5 < chunk.length := by
  decide

end VoiceAI
